import Mathlib

/-!
Shallow embedding of `env_logger_timezone_fmt` (src/src/lib.rs): a log-line
formatter with a timezone/precision policy (`TimeZoneFormatEnv`) and a
per-event renderer (`TimeZoneFormat`).  Writes to the output buffer are
modelled as a list of string chunks, one chunk per elementary `write!` /
`write_all` call of the source; the rendered output is their concatenation.
The wall-clock timestamp string is abstracted as a parameter `ts` (the source
formats `SystemTime::now()`; pattern selection is modelled separately).
-/

namespace EnvLoggerTz

/-! ## Generic list helpers used by the embedding -/

/-- Split a list at every occurrence of `a`, dropping the separators.
Mirrors Rust `slice::split(|x| x == sep)`: the empty list yields one empty
chunk, and a trailing separator yields a trailing empty chunk. -/
def splitOnElem {α : Type} [DecidableEq α] (a : α) : List α → List (List α)
  | [] => [[]]
  | b :: t =>
    if b = a then [] :: splitOnElem a t
    else
      match splitOnElem a t with
      | [] => [[b]]
      | h :: r => (b :: h) :: r

/-- Interleave `sep` between consecutive chunks (no leading or trailing
separator), as the `first` flag loop of `IndentWrapper::write` does. -/
def joinSep {α : Type} (sep : List α) : List (List α) → List α
  | [] => []
  | c :: cs =>
    match cs with
    | [] => c
    | _ :: _ => c ++ sep ++ joinSep sep cs

/-- Replace every occurrence of `a` by the block `sep`. -/
def replaceElem {α : Type} [DecidableEq α] (a : α) (sep : List α) : List α → List α
  | [] => []
  | b :: t => (if b = a then sep else [b]) ++ replaceElem a sep t

/-- Number of occurrences of `a` in a list. -/
def countElem {α : Type} [DecidableEq α] (a : α) : List α → Nat
  | [] => 0
  | b :: t => (if b = a then 1 else 0) + countElem a t

/-- Concatenation of a list of strings, in order. -/
def strJoin : List String → String
  | [] => ""
  | s :: t => s ++ strJoin t

/-! ## FormatPolicy: `TimeZoneFormatEnv` -/

def DATETIME_FMT_SECOND : String := "%Y-%m-%d %H:%M:%S %:z"

def DATETIME_FMT_3F : String := "%Y-%m-%d %H:%M:%S%.3f %:z"

def DATETIME_FMT_6F : String := "%Y-%m-%d %H:%M:%S%.6f %:z"

/-- `env_logger::TimestampPrecision`. -/
inductive TimestampPrecision : Type
  | Seconds
  | Millis
  | Micros
  | Nanos
deriving DecidableEq

/-- Modelled from the spec: chrono's `FixedOffset::east_opt` is an external
dependency (not under src/); per the spec and chrono's documentation it
accepts a UTC offset in seconds strictly within ±24 hours and returns `None`
otherwise. The offset itself is modelled as its value in seconds. -/
def east_opt (secs : Int) : Option Int :=
  if -86400 < secs ∧ secs < 86400 then some secs else none

/-- The policy: `TimeZoneFormatEnv` (src/src/lib.rs, lines 14-23).  The
`offset` is the fixed UTC offset in seconds. -/
structure TimeZoneFormatEnv : Type where
  datetime_fmt : String
  offset : Int
  module_path : Bool
  target : Bool
  level : Bool
  indent : Option Nat
  suffix : String
deriving DecidableEq

/-- `TimeZoneFormatEnv::new` (src/src/lib.rs, lines 32-57).  `localOffset`
models `Local::now().offset().fix()`, the process's current local UTC offset
at construction time, an input from the environment.  Construction is a total
function: an invalid explicit offset silently falls back to `localOffset`. -/
def TimeZoneFormatEnv.new (localOffset : Int) (offset_value : Option Int)
    (timestamp_precision : Option TimestampPrecision) : TimeZoneFormatEnv :=
  let offset : Int :=
    match offset_value with
    | some v => (east_opt v).getD localOffset
    | none => localOffset
  let datetime_fmt : String :=
    match timestamp_precision with
    | some .Seconds => DATETIME_FMT_SECOND
    | some .Millis => DATETIME_FMT_3F
    | some .Micros => DATETIME_FMT_6F
    | some .Nanos => DATETIME_FMT_6F
    | none => DATETIME_FMT_3F
  { datetime_fmt := datetime_fmt
    offset := offset
    module_path := false
    target := true
    level := true
    indent := some 4
    suffix := "\n" }

/-! ## Log events and styling -/

/-- `log::Level`. -/
inductive Level : Type
  | error
  | warn
  | info
  | debug
  | trace
deriving DecidableEq

/-- Display text of a `log::Level` (the log crate renders the upper-case
name). -/
def Level.str : Level → String
  | .error => "ERROR"
  | .warn => "WARN"
  | .info => "INFO"
  | .debug => "DEBUG"
  | .trace => "TRACE"

/-- A style capability from the host environment: `{style}` emits the start
marker and `{style:#}` the reset marker (both may be empty when styling is
disabled).  Models `env_logger::fmt::style::Style` as used by `StyledValue`
(src/src/lib.rs, lines 61-74). -/
structure Style : Type where
  start : String
  stop : String
deriving DecidableEq

/-- A log record: severity, optional module path, target (possibly empty) and
the already-formatted message body (`record.args()`). -/
structure Record : Type where
  level : Level
  module_path : Option String
  target : String
  args : String
deriving DecidableEq

/-- Left-justify to width 5 padding with spaces, Rust's `{:<5}` (no
truncation for longer values). -/
def padTo5 (s : String) : String :=
  s ++ String.mk (List.replicate (5 - s.length) ' ')

/-- The text written for the level field: `format_args!("{:<5}", styled)`.
Rust's width option is forwarded through `StyledValue`'s `Display` to the
inner `log::Level`, whose `Display` is `f.pad(self.as_str())`; the style
start/reset markers are written outside the padding.  So the emission is
start marker, the level text padded to width 5, reset marker. -/
def levelValue (style : Style) (lv : Level) : String :=
  style.start ++ padTo5 lv.str ++ style.stop

/-! ## LineRenderer: `TimeZoneFormat`

Each `write_*` step takes the `written_header_value` flag and returns the
list of chunks it writes together with the updated flag. -/

/-- `TimeZoneFormat::write_header_value` (src/src/lib.rs, lines 105-117):
the first header field is preceded by an opening bracket, every later one by
a single space; either way the flag is set. -/
def write_header_value (st : Bool) (v : String) : List String × Bool :=
  if st = false then (["[" ++ v], true) else ([" " ++ v], true)

/-- `TimeZoneFormat::write_timestamp` (src/src/lib.rs, lines 135-140); the
formatted wall-clock string is the parameter `ts`. -/
def write_timestamp (st : Bool) (ts : String) : List String × Bool :=
  write_header_value st ts

/-- `TimeZoneFormat::write_level` (src/src/lib.rs, lines 119-133). -/
def write_level (env : TimeZoneFormatEnv) (style : Style) (r : Record)
    (st : Bool) : List String × Bool :=
  if env.level = false then ([], st)
  else write_header_value st (levelValue style r.level)

/-- `TimeZoneFormat::write_module_path` (src/src/lib.rs, lines 142-152). -/
def write_module_path (env : TimeZoneFormatEnv) (r : Record) (st : Bool) :
    List String × Bool :=
  if env.module_path = false then ([], st)
  else
    match r.module_path with
    | some mp => write_header_value st mp
    | none => ([], st)

/-- `TimeZoneFormat::write_target` (src/src/lib.rs, lines 154-163). -/
def write_target (env : TimeZoneFormatEnv) (r : Record) (st : Bool) :
    List String × Bool :=
  if env.target = false then ([], st)
  else if r.target = "" then ([], st)
  else write_header_value st r.target

/-- `TimeZoneFormat::finish_header` (src/src/lib.rs, lines 165-172). -/
def finish_header (st : Bool) : List String :=
  if st = true then ["] "] else []

/-- `IndentWrapper::write` (src/src/lib.rs, lines 188-205) on one byte chunk:
split on the line-break byte 10 and interleave the policy's suffix followed
by `indent` space bytes (32) before every chunk but the first.  Returns the
bytes written to the underlying buffer. -/
def wrapperWrite (suffix : List Nat) (indent : Nat) (chunk : List Nat) : List Nat :=
  joinSep (suffix ++ List.replicate indent 32) (splitOnElem 10 chunk)

/-- `TimeZoneFormat::write_args` (src/src/lib.rs, lines 174-224) as the list
of chunks written: with `indent = none` the body is one verbatim write; with
`indent = some n` the message is fed to the indent wrapper, whose loop writes
`suffix ++ n spaces` (one `write!` call) before every split chunk but the
first, then the chunk itself (one `write_all` call). -/
def write_args (env : TimeZoneFormatEnv) (args : String) : List String :=
  match env.indent with
  | none => [args]
  | some n =>
    let sep : String := env.suffix ++ String.mk (List.replicate n ' ')
    match splitOnElem '\n' args.data with
    | [] => []
    | h :: t => String.mk h :: t.flatMap (fun c => [sep, String.mk c])

/-- Message body as finally written (concatenation of the body chunks). -/
def bodyOut (env : TimeZoneFormatEnv) (args : String) : String :=
  strJoin (write_args env args)

/-- The header portion of `TimeZoneFormat::write` (steps 1-5): timestamp,
level, module path, target, then `finish_header`; returns the chunks and the
final `written_header_value` flag. -/
def headerChunks (env : TimeZoneFormatEnv) (style : Style) (r : Record)
    (ts : String) : List String × Bool :=
  let s1 := write_timestamp false ts
  let s2 := write_level env style r s1.2
  let s3 := write_module_path env r s2.2
  let s4 := write_target env r s3.2
  (s1.1 ++ s2.1 ++ s3.1 ++ s4.1 ++ finish_header s4.2, s4.2)

/-- `TimeZoneFormat::write` (src/src/lib.rs, lines 90-99) as the ordered list
of elementary writes: header, body, then the suffix. -/
def renderChunks (env : TimeZoneFormatEnv) (style : Style) (r : Record)
    (ts : String) : List String :=
  (headerChunks env style r ts).1 ++ write_args env r.args ++ [env.suffix]

/-- The full rendered line on the success path. -/
def renderOutput (env : TimeZoneFormatEnv) (style : Style) (r : Record)
    (ts : String) : String :=
  strJoin (renderChunks env style r ts)

/-! ## Fallible sink

A sink accepts or refuses each elementary write: `sink i = some e` means the
`i`-th write fails with error `e`.  `runWrites` performs the writes in order,
stops at the first failure, and returns the bytes written so far together
with the propagated error, modelling `io::Result` propagation through `?`. -/

def runWrites {ε : Type} (sink : Nat → Option ε) : Nat → List String → String × Option ε
  | _, [] => ("", none)
  | i, c :: cs =>
    match sink i with
    | some e => ("", some e)
    | none =>
      let r := runWrites sink (i + 1) cs
      (c ++ r.1, r.2)

/-- `TimeZoneFormat::write` against a fallible sink. -/
def renderWith {ε : Type} (sink : Nat → Option ε) (env : TimeZoneFormatEnv)
    (style : Style) (r : Record) (ts : String) : String × Option ε :=
  runWrites sink 0 (renderChunks env style r ts)

/-- The header-field mechanism applied to an explicit list of field values,
threading the `written_header_value` flag through `write_header_value`. -/
def processFields (st : Bool) : List String → List String × Bool
  | [] => ([], st)
  | v :: vs =>
    let c := write_header_value st v
    let rest := processFields c.2 vs
    (c.1 ++ rest.1, rest.2)

/-- The header field values after the timestamp, in source order: level (if
enabled), module path (if enabled and present), target (if enabled and
non-empty). -/
def restFields (env : TimeZoneFormatEnv) (style : Style) (r : Record) : List String :=
  (if env.level = true then [levelValue style r.level] else []) ++
  (if env.module_path = true then
    (match r.module_path with
     | some mp => [mp]
     | none => []) else []) ++
  (if env.target = true then (if r.target = "" then [] else [r.target]) else [])

/-! ## Helper lemmas -/

theorem str_data_append (s t : String) : (s ++ t).data = s.data ++ t.data := rfl

theorem str_ext {s t : String} (h : s.data = t.data) : s = t :=
  congrArg String.mk h

theorem str_append_empty (s : String) : s ++ "" = s := by
  apply str_ext
  simp [str_data_append]

theorem str_append_assoc (a b c : String) : a ++ b ++ c = a ++ (b ++ c) := by
  apply str_ext
  simp [str_data_append]

theorem strJoin_append (l₁ l₂ : List String) :
    strJoin (l₁ ++ l₂) = strJoin l₁ ++ strJoin l₂ := by
  induction l₁ with
  | nil =>
    apply str_ext
    simp [strJoin, str_data_append]
  | cons s t ih =>
    show s ++ strJoin (t ++ l₂) = s ++ strJoin t ++ strJoin l₂
    rw [ih, str_append_assoc]

theorem splitOnElem_ne_nil {α : Type} [DecidableEq α] (a : α) (l : List α) :
    splitOnElem a l ≠ [] := by
  cases l with
  | nil => simp [splitOnElem]
  | cons b t =>
    by_cases h : b = a
    · simp [splitOnElem, h]
    · simp only [splitOnElem, if_neg h]
      cases splitOnElem a t <;> simp

theorem joinSep_cons₂ {α : Type} (sep c : List α) (d : List α) (t : List (List α)) :
    joinSep sep (c :: d :: t) = c ++ sep ++ joinSep sep (d :: t) := rfl

theorem joinSep_cons_head {α : Type} (sep : List α) (b : α) (h : List α)
    (r : List (List α)) : joinSep sep ((b :: h) :: r) = b :: joinSep sep (h :: r) := by
  cases r <;> simp [joinSep]

theorem joinSep_splitOnElem {α : Type} [DecidableEq α] (a : α) (sep : List α)
    (l : List α) : joinSep sep (splitOnElem a l) = replaceElem a sep l := by
  induction l with
  | nil => simp [splitOnElem, joinSep, replaceElem]
  | cons b t ih =>
    by_cases h : b = a
    · subst h
      have hs : splitOnElem b (b :: t) = [] :: splitOnElem b t := by
        simp [splitOnElem]
      have hr : replaceElem b sep (b :: t) = sep ++ replaceElem b sep t := by
        simp [replaceElem]
      obtain ⟨h₀, r₀, ht⟩ := List.exists_cons_of_ne_nil (splitOnElem_ne_nil b t)
      rw [ht] at ih
      rw [hs, hr, ht, joinSep_cons₂, ih]
      simp
    · simp only [splitOnElem, if_neg h, replaceElem, if_neg h]
      obtain ⟨h₀, r₀, ht⟩ := List.exists_cons_of_ne_nil (splitOnElem_ne_nil a t)
      rw [ht]
      rw [ht] at ih
      simp [joinSep_cons_head, ih]

theorem replaceElem_append {α : Type} [DecidableEq α] (a : α) (sep : List α)
    (l₁ l₂ : List α) :
    replaceElem a sep (l₁ ++ l₂) = replaceElem a sep l₁ ++ replaceElem a sep l₂ := by
  induction l₁ with
  | nil => simp [replaceElem]
  | cons b t ih => simp [replaceElem, ih]

theorem replaceElem_self {α : Type} [DecidableEq α] (a : α) (l : List α) :
    replaceElem a [a] l = l := by
  induction l with
  | nil => rfl
  | cons b t ih =>
    by_cases h : b = a
    · subst h
      simp [replaceElem, ih]
    · simp [replaceElem, if_neg h, ih]

theorem length_splitOnElem {α : Type} [DecidableEq α] (a : α) (l : List α) :
    (splitOnElem a l).length = countElem a l + 1 := by
  induction l with
  | nil => simp [splitOnElem, countElem]
  | cons b t ih =>
    by_cases h : b = a
    · simp [splitOnElem, if_pos h, countElem, if_pos h, ih, Nat.add_comm]
    · simp only [splitOnElem, if_neg h, countElem, if_neg h]
      obtain ⟨h₀, r₀, ht⟩ := List.exists_cons_of_ne_nil (splitOnElem_ne_nil a t)
      rw [ht]
      rw [ht] at ih
      simpa using ih

theorem not_mem_splitOnElem {α : Type} [DecidableEq α] (a : α) (l : List α) :
    ∀ p ∈ splitOnElem a l, a ∉ p := by
  induction l with
  | nil =>
    intro p hp
    simp [splitOnElem] at hp
    simp [hp]
  | cons b t ih =>
    by_cases h : b = a
    · intro p hp
      simp only [splitOnElem, if_pos h, List.mem_cons] at hp
      rcases hp with hp | hp
      · simp [hp]
      · exact ih p hp
    · intro p hp
      simp only [splitOnElem, if_neg h] at hp
      obtain ⟨h₀, r₀, ht⟩ := List.exists_cons_of_ne_nil (splitOnElem_ne_nil a t)
      rw [ht] at hp
      simp only [List.mem_cons] at hp
      rcases hp with hp | hp
      · subst hp
        intro hmem
        rcases List.mem_cons.mp hmem with hba | hmem
        · exact h hba.symm
        · exact ih h₀ (by rw [ht]; exact List.mem_cons_self h₀ r₀) hmem
      · exact ih p (by rw [ht]; exact List.mem_cons_of_mem h₀ hp)

theorem bodyJoin (sep : String) (h : List Char) (t : List (List Char)) :
    (strJoin (String.mk h :: t.flatMap (fun c => [sep, String.mk c]))).data =
      joinSep sep.data (h :: t) := by
  induction t generalizing h with
  | nil => simp [strJoin, joinSep, str_data_append]
  | cons c t' ih =>
    have hflat : (c :: t').flatMap (fun d => [sep, String.mk d]) =
        sep :: String.mk c :: t'.flatMap (fun d => [sep, String.mk d]) := by
      simp
    rw [hflat]
    show (String.mk h ++ (sep ++
      strJoin (String.mk c :: t'.flatMap (fun d => [sep, String.mk d])))).data = _
    rw [str_data_append, str_data_append, ih c, joinSep_cons₂]
    simp [List.append_assoc]

theorem bodyOut_indent (env : TimeZoneFormatEnv) (args : String) (n : Nat)
    (hn : env.indent = some n) :
    (bodyOut env args).data =
      replaceElem '\n' (env.suffix.data ++ List.replicate n ' ') args.data := by
  unfold bodyOut write_args
  rw [hn]
  obtain ⟨h₀, r₀, ht⟩ := List.exists_cons_of_ne_nil (splitOnElem_ne_nil '\n' args.data)
  simp only [ht]
  have hb := bodyJoin (env.suffix ++ String.mk (List.replicate n ' ')) h₀ r₀
  rw [hb, str_data_append]
  have : (String.mk (List.replicate n ' ')).data = List.replicate n ' ' := rfl
  rw [this, ← ht, joinSep_splitOnElem]

theorem bodyOut_none (env : TimeZoneFormatEnv) (args : String)
    (hn : env.indent = none) : bodyOut env args = args := by
  unfold bodyOut write_args
  rw [hn]
  simp [strJoin, str_append_empty]

theorem headerChunks_eq (env : TimeZoneFormatEnv) (style : Style) (r : Record)
    (ts : String) :
    headerChunks env style r ts =
      (("[" ++ ts) :: ((restFields env style r).map (fun w => " " ++ w) ++ ["] "]),
        true) := by
  cases hl : env.level <;> cases hm : env.module_path <;> cases htg : env.target <;>
    cases hmp : r.module_path <;> by_cases htv : r.target = "" <;>
      simp [headerChunks, write_timestamp, write_level, write_module_path,
        write_target, finish_header, write_header_value, restFields, hl, hm, htg,
        hmp, htv]

theorem headerJoin (env : TimeZoneFormatEnv) (style : Style) (r : Record)
    (ts : String) :
    strJoin (headerChunks env style r ts).1 =
      "[" ++ ts ++ strJoin ((restFields env style r).map (fun w => " " ++ w)) ++ "] " := by
  rw [headerChunks_eq]
  show ("[" ++ ts) ++ strJoin ((restFields env style r).map (fun w => " " ++ w) ++ ["] "]) = _
  rw [strJoin_append]
  show ("[" ++ ts) ++ (strJoin ((restFields env style r).map (fun w => " " ++ w)) ++ ("] " ++ "")) = _
  rw [str_append_empty]
  simp [str_append_assoc]

theorem renderOutput_eq (env : TimeZoneFormatEnv) (style : Style) (r : Record)
    (ts : String) :
    renderOutput env style r ts =
      "[" ++ ts ++ strJoin ((restFields env style r).map (fun w => " " ++ w)) ++ "] " ++
        bodyOut env r.args ++ env.suffix := by
  unfold renderOutput renderChunks
  rw [strJoin_append, strJoin_append, headerJoin]
  show _ = "[" ++ ts ++ strJoin ((restFields env style r).map (fun w => " " ++ w)) ++ "] " ++
    strJoin (write_args env r.args) ++ env.suffix
  rw [show strJoin [env.suffix] = env.suffix ++ "" from rfl, str_append_empty]

theorem processFields_true (vs : List String) :
    processFields true vs = (vs.map (fun w => " " ++ w), true) := by
  induction vs with
  | nil => rfl
  | cons v t ih => simp [processFields, write_header_value, ih]

theorem runWrites_ok {ε : Type} (sink : Nat → Option ε) (hs : ∀ j, sink j = none)
    (cs : List String) : ∀ i, runWrites sink i cs = (strJoin cs, none) := by
  induction cs with
  | nil => intro i; rfl
  | cons c t ih =>
    intro i
    simp [runWrites, hs i, ih (i + 1), strJoin]

theorem runWrites_fail {ε : Type} (sink : Nat → Option ε) (cs : List String) :
    ∀ (i k : Nat) (e : ε), sink (i + k) = some e → (∀ j, j < k → sink (i + j) = none) →
      k < cs.length → runWrites sink i cs = (strJoin (cs.take k), some e) := by
  induction cs with
  | nil =>
    intro i k e _ _ hk
    simp at hk
  | cons c t ih =>
    intro i k e he hpre hk
    cases k with
    | zero =>
      have h0 : sink i = some e := by simpa using he
      simp [runWrites, h0, strJoin]
    | succ k' =>
      have h0 : sink i = none := by
        have := hpre 0 (Nat.succ_pos k')
        simpa using this
      have he' : sink (i + 1 + k') = some e := by
        rw [show i + 1 + k' = i + (k' + 1) from by omega]
        exact he
      have hpre' : ∀ j, j < k' → sink (i + 1 + j) = none := by
        intro j hj
        rw [show i + 1 + j = i + (j + 1) from by omega]
        exact hpre (j + 1) (by omega)
      have hk' : k' < t.length := by simpa using hk
      simp [runWrites, h0, ih (i + 1) k' e he' hpre' hk', strJoin]

/-! ## Concrete fixtures -/

/-- A no-op style capability (styling disabled). -/
def styleNone : Style := { start := "", stop := "" }

/-- A style capability with visible markers. -/
def styleS : Style := { start := "<", stop := ">" }

/-- A policy with all three header-field toggles disabled and no indentation. -/
def envC1 : TimeZoneFormatEnv :=
  { datetime_fmt := DATETIME_FMT_3F, offset := 0, module_path := false,
    target := false, level := false, indent := none, suffix := "\n" }

/-- A single-line record with no module path. -/
def recC1 : Record :=
  { level := .info, module_path := none, target := "net", args := "msg" }

/-- A policy with indent width 2. -/
def envInd : TimeZoneFormatEnv :=
  { datetime_fmt := DATETIME_FMT_3F, offset := 0, module_path := false,
    target := true, level := true, indent := some 2, suffix := "\n" }

/-- A warning-level record. -/
def recW : Record :=
  { level := .warn, module_path := none, target := "t", args := "x" }

/-- A policy with module path and target enabled. -/
def envMT : TimeZoneFormatEnv :=
  { datetime_fmt := DATETIME_FMT_3F, offset := 0, module_path := true,
    target := true, level := true, indent := none, suffix := "\n" }

/-- A record carrying a module path and a non-empty target. -/
def recMT : Record :=
  { level := .info, module_path := some "m", target := "t", args := "x" }

/-- A record whose message body ends in a line break. -/
def recNL : Record :=
  { level := .info, module_path := none, target := "t", args := "a\n" }

/-- A sink that refuses the second elementary write with error 42. -/
def sinkW : Nat → Option Nat := fun j => if j = 1 then some 42 else none

/-! ## Claims -/

/-- Claim C1, counterexample: with `show_level`, `show_module_path` and
`show_target` all disabled, the rendered output is NOT just the message body
plus line terminator — the timestamp header is always written, so the output
is `[T] msg\n`, which differs from `msg\n` and contains a bracket. -/
theorem header_flags_disabled_cex :
    renderOutput envC1 styleNone recC1 "T" ≠ recC1.args ++ envC1.suffix ∧
    '[' ∈ (renderOutput envC1 styleNone recC1 "T").data := by
  decide

/-- Claim C1, amended: with `show_level`, `show_module_path` and `show_target`
all disabled, the rendered output is the bracketed timestamp header
`[timestamp] ` followed by the (possibly indented) message body and the line
terminator — the timestamp field and its brackets are always present. -/
theorem header_flags_disabled_amended (env : TimeZoneFormatEnv) (style : Style)
    (r : Record) (ts : String) (hl : env.level = false)
    (hm : env.module_path = false) (ht : env.target = false) :
    renderOutput env style r ts =
      "[" ++ ts ++ "] " ++ bodyOut env r.args ++ env.suffix := by
  rw [renderOutput_eq]
  simp [restFields, hl, hm, ht, strJoin, str_append_empty]

/-- Witness for the amended claim C1 at a concrete policy and record. -/
theorem header_flags_disabled_amended_witness :
    renderOutput envC1 styleNone recC1 "T" =
      "[" ++ "T" ++ "] " ++ bodyOut envC1 recC1.args ++ envC1.suffix :=
  header_flags_disabled_amended envC1 styleNone recC1 "T" rfl rfl rfl

/-- Claim C2: constructing a policy with `offset_seconds = Some v` uses `v` as
the fixed UTC offset exactly when `v` is a valid UTC offset (strictly within
±24 hours in seconds, the range chrono's `FixedOffset::east_opt` accepts);
for any other `v`, and for `offset_seconds = None`, the process's local UTC
offset resolved at construction time is used instead.  Construction is a
total function: no error is ever raised. -/
theorem offset_resolution (localOffset v : Int) (p : Option TimestampPrecision) :
    ((-86400 < v ∧ v < 86400) →
      (TimeZoneFormatEnv.new localOffset (some v) p).offset = v) ∧
    (¬(-86400 < v ∧ v < 86400) →
      (TimeZoneFormatEnv.new localOffset (some v) p).offset = localOffset) ∧
    (TimeZoneFormatEnv.new localOffset none p).offset = localOffset := by
  refine ⟨fun h => ?_, fun h => ?_, ?_⟩
  · simp [TimeZoneFormatEnv.new, east_opt, h]
  · simp [TimeZoneFormatEnv.new, east_opt, h]
  · simp [TimeZoneFormatEnv.new]

/-- Witness for claim C2: a valid offset (+8h) is kept, an invalid one
(100000 s > 24 h) and an absent one fall back to the local offset. -/
theorem offset_resolution_witness :
    (TimeZoneFormatEnv.new 3600 (some 28800) none).offset = 28800 ∧
    (TimeZoneFormatEnv.new 3600 (some 100000) none).offset = 3600 ∧
    (TimeZoneFormatEnv.new 3600 none none).offset = 3600 :=
  ⟨(offset_resolution 3600 28800 none).1 (by decide),
   (offset_resolution 3600 100000 none).2.1 (by decide),
   (offset_resolution 3600 100000 none).2.2⟩

/-- Claim C3: with `indent_width = Some n`, a message body containing `k`
line-break characters renders as `k + 1` break-free pieces whose
recombination with line breaks is the original body, joined by exactly `k`
blocks each consisting of the line terminator immediately followed by `n`
spaces; with `indent_width = None` the body is reproduced verbatim. -/
theorem indent_inserts_blocks :
    (∀ (env : TimeZoneFormatEnv) (args : String) (n k : Nat),
      env.indent = some n → countElem '\n' args.data = k →
      ∃ parts : List (List Char), parts.length = k + 1 ∧
        (∀ p ∈ parts, '\n' ∉ p) ∧ args.data = joinSep ['\n'] parts ∧
        (bodyOut env args).data =
          joinSep (env.suffix.data ++ List.replicate n ' ') parts) ∧
    (∀ (env : TimeZoneFormatEnv) (args : String), env.indent = none →
      bodyOut env args = args) := by
  constructor
  · intro env args n k hn hk
    refine ⟨splitOnElem '\n' args.data, ?_, not_mem_splitOnElem _ _, ?_, ?_⟩
    · rw [length_splitOnElem, hk]
    · rw [joinSep_splitOnElem, replaceElem_self]
    · rw [bodyOut_indent env args n hn, joinSep_splitOnElem]
  · intro env args hn
    exact bodyOut_none env args hn

/-- Witness for claim C3: one line break with indent width 2, and verbatim
reproduction when indentation is disabled. -/
theorem indent_inserts_blocks_witness :
    (∃ parts : List (List Char), parts.length = 1 + 1 ∧
      (∀ p ∈ parts, '\n' ∉ p) ∧ ("a\nb" : String).data = joinSep ['\n'] parts ∧
      (bodyOut envInd "a\nb").data =
        joinSep (envInd.suffix.data ++ List.replicate 2 ' ') parts) ∧
    bodyOut envC1 "a\nb" = "a\nb" :=
  ⟨indent_inserts_blocks.1 envInd "a\nb" 2 1 rfl (by decide),
   indent_inserts_blocks.2 envC1 "a\nb" rfl⟩

/-- Claim C4: the header mechanism writes the first field preceded by exactly
one opening bracket, every later field preceded by exactly one space, and
closes with a bracket plus one space exactly when at least one field was
written (nothing otherwise); in every render the header is the bracketed
timestamp followed by the space-separated enabled fields. -/
theorem header_bracket_placement :
    (∀ vs : List String,
      strJoin ((processFields false vs).1 ++
          finish_header (processFields false vs).2) =
        match vs with
        | [] => ""
        | v :: ws => "[" ++ v ++ strJoin (ws.map (fun w => " " ++ w)) ++ "] ") ∧
    (∀ (env : TimeZoneFormatEnv) (style : Style) (r : Record) (ts : String),
      strJoin (headerChunks env style r ts).1 =
        "[" ++ ts ++ strJoin ((restFields env style r).map (fun w => " " ++ w)) ++
          "] " ∧
      (headerChunks env style r ts).2 = true) := by
  constructor
  · intro vs
    cases vs with
    | nil => rfl
    | cons v ws =>
      have h1 : processFields false (v :: ws) =
          (("[" ++ v) :: ws.map (fun w => " " ++ w), true) := by
        simp [processFields, write_header_value, processFields_true]
      rw [h1]
      show strJoin ((("[" ++ v) :: ws.map (fun w => " " ++ w)) ++ ["] "]) = _
      rw [strJoin_append]
      show ("[" ++ v) ++ strJoin (ws.map (fun w => " " ++ w)) ++ ("] " ++ "") = _
      rw [str_append_empty]
  · intro env style r ts
    exact ⟨headerJoin env style r ts, by rw [headerChunks_eq]⟩

/-- Claim C5: precision selection maps `Some Seconds` to the seconds-only
pattern, `Some Millis` to the 3-fractional-digit pattern, `Some Micros` and
`Some Nanos` both to the 6-fractional-digit pattern, `None` to the
3-fractional-digit pattern, and each pattern ends with the numeric UTC
offset directive. -/
theorem precision_pattern (localOffset : Int) (off : Option Int) :
    (TimeZoneFormatEnv.new localOffset off (some .Seconds)).datetime_fmt =
      DATETIME_FMT_SECOND ∧
    (TimeZoneFormatEnv.new localOffset off (some .Millis)).datetime_fmt =
      DATETIME_FMT_3F ∧
    (TimeZoneFormatEnv.new localOffset off (some .Micros)).datetime_fmt =
      DATETIME_FMT_6F ∧
    (TimeZoneFormatEnv.new localOffset off (some .Nanos)).datetime_fmt =
      DATETIME_FMT_6F ∧
    (TimeZoneFormatEnv.new localOffset off none).datetime_fmt = DATETIME_FMT_3F ∧
    DATETIME_FMT_SECOND = "%Y-%m-%d %H:%M:%S " ++ "%:z" ∧
    DATETIME_FMT_3F = "%Y-%m-%d %H:%M:%S%.3f " ++ "%:z" ∧
    DATETIME_FMT_6F = "%Y-%m-%d %H:%M:%S%.6f " ++ "%:z" := by
  refine ⟨?_, ?_, ?_, ?_, ?_, by decide, by decide, by decide⟩ <;>
    cases off <;> simp [TimeZoneFormatEnv.new]

/-- Claim C6: the indenting body sink is insensitive to chunking — writing a
byte sequence as one chunk and writing it as any sequence of chunks produce
the same output bytes. -/
theorem indent_chunking_insensitive (suffix : List Nat) (n : Nat)
    (chunks : List (List Nat)) :
    (chunks.map (wrapperWrite suffix n)).flatten =
      wrapperWrite suffix n chunks.flatten := by
  have hrep : ∀ c, wrapperWrite suffix n c =
      replaceElem 10 (suffix ++ List.replicate n 32) c :=
    fun c => joinSep_splitOnElem _ _ _
  induction chunks with
  | nil => simp [wrapperWrite, splitOnElem, joinSep]
  | cons c t ih =>
    simp only [List.map_cons, List.flatten_cons, ih, hrep, replaceElem_append]

/-- Claim C7: the only failure mode of a render is the sink refusing a write;
with a sink that accepts everything the full line is produced with no error,
and when the sink first fails at write `i` the error is returned unmodified
and only the chunks before `i` have been written. -/
theorem render_error_propagation {ε : Type} (env : TimeZoneFormatEnv)
    (style : Style) (r : Record) (ts : String) (sink : Nat → Option ε) :
    ((∀ j, sink j = none) →
      renderWith sink env style r ts = (renderOutput env style r ts, none)) ∧
    (∀ (i : Nat) (e : ε), sink i = some e → (∀ j, j < i → sink j = none) →
      i < (renderChunks env style r ts).length →
      renderWith sink env style r ts =
        (strJoin ((renderChunks env style r ts).take i), some e)) := by
  constructor
  · intro hs
    unfold renderWith renderOutput
    exact runWrites_ok sink hs _ 0
  · intro i e he hpre hi
    unfold renderWith
    exact runWrites_fail sink (renderChunks env style r ts) 0 i e
      (by simpa using he) (fun j hj => by simpa using hpre j hj) hi

/-- Witness for claim C7: a sink failing at the second write leaves the
partial line `[T` and surfaces error 42; an accepting sink yields the whole
line. -/
theorem render_error_propagation_witness :
    renderWith sinkW envC1 styleNone recC1 "T" = ("[T", some 42) ∧
    renderWith (fun _ => (none : Option Nat)) envC1 styleNone recC1 "T" =
      ("[T] msg\n", none) := by
  constructor
  · exact ((render_error_propagation envC1 styleNone recC1 "T" sinkW).2 1 42
      (by decide) (fun j hj => by
        have h0 : j = 0 := by omega
        subst h0
        decide) (by decide)).trans
      (by decide)
  · exact ((render_error_propagation envC1 styleNone recC1 "T"
      (fun _ => (none : Option Nat))).1 (fun _ => rfl)).trans (by decide)

/-- Claim C8: with `show_level` enabled the level is written as a header
field whose text is the style start marker, the level name left-justified and
padded to width 5, then the style reset marker — the plain level text is
always present and unaltered, only wrapped. -/
theorem level_field_format (env : TimeZoneFormatEnv) (style : Style)
    (r : Record) (st : Bool) (hl : env.level = true) :
    write_level env style r st = write_header_value st (levelValue style r.level) ∧
    levelValue style r.level = style.start ++ padTo5 r.level.str ++ style.stop ∧
    (padTo5 r.level.str).length = 5 ∧
    (∃ pad, padTo5 r.level.str = r.level.str ++ pad ∧ ∀ c ∈ pad.data, c = ' ') := by
  refine ⟨by simp [write_level, hl], rfl, ?_, ?_⟩
  · have h5 : ∀ lv : Level, (padTo5 lv.str).length = 5 := by
      intro lv
      cases lv <;> decide
    exact h5 r.level
  · refine ⟨String.mk (List.replicate (5 - r.level.str.length) ' '), rfl, ?_⟩
    intro c hc
    exact List.eq_of_mem_replicate hc

/-- Witness for claim C8 at a concrete style and a WARN record. -/
theorem level_field_format_witness :
    write_level envInd styleS recW false =
      write_header_value false (levelValue styleS recW.level) ∧
    levelValue styleS recW.level =
      styleS.start ++ padTo5 recW.level.str ++ styleS.stop ∧
    (padTo5 recW.level.str).length = 5 ∧
    (∃ pad, padTo5 recW.level.str = recW.level.str ++ pad ∧
      ∀ c ∈ pad.data, c = ' ') :=
  level_field_format envInd styleS recW false rfl

/-- Claim C9: the module-path field is written exactly when
`show_module_path` is enabled and the record carries a module path, and the
target field exactly when `show_target` is enabled and the target is
non-empty; a skipped field contributes no chunks and leaves the header flag
unchanged. -/
theorem module_target_emission (env : TimeZoneFormatEnv) (r : Record)
    (st : Bool) :
    ((write_module_path env r st).1 ≠ [] ↔
      env.module_path = true ∧ r.module_path ≠ none) ∧
    ((env.module_path = false ∨ r.module_path = none) →
      write_module_path env r st = ([], st)) ∧
    (∀ mp, env.module_path = true → r.module_path = some mp →
      write_module_path env r st = write_header_value st mp) ∧
    ((write_target env r st).1 ≠ [] ↔ env.target = true ∧ r.target ≠ "") ∧
    ((env.target = false ∨ r.target = "") → write_target env r st = ([], st)) ∧
    (env.target = true → r.target ≠ "" →
      write_target env r st = write_header_value st r.target) := by
  refine ⟨?_, ?_, ?_, ?_, ?_, ?_⟩
  · cases hm : env.module_path <;> cases hmp : r.module_path <;> cases st <;>
      simp [write_module_path, write_header_value, hm, hmp]
  · intro h
    rcases h with h | h <;>
      cases hm : env.module_path <;> cases hmp : r.module_path <;>
        simp_all [write_module_path]
  · intro mp hm hmp
    simp [write_module_path, hm, hmp]
  · cases htg : env.target <;> by_cases htv : r.target = "" <;> cases st <;>
      simp [write_target, write_header_value, htg, htv]
  · intro h
    rcases h with h | h <;> cases htg : env.target <;>
      simp_all [write_target]
  · intro htg htv
    simp [write_target, htg, htv]

/-- Witness for claim C9: emitted module path and target on an enabled
policy, and a skipped module path on a disabled one. -/
theorem module_target_emission_witness :
    write_module_path envMT recMT false = write_header_value false "m" ∧
    write_target envMT recMT true = write_header_value true "t" ∧
    write_module_path envC1 recC1 false = ([], false) :=
  ⟨(module_target_emission envMT recMT false).2.2.1 "m" rfl rfl,
   (module_target_emission envMT recMT true).2.2.2.2.2 rfl (by decide),
   (module_target_emission envC1 recC1 false).2.1 (Or.inr rfl)⟩

/-- Claim C10: with `indent_width = Some n`, a message body ending in a line
break renders with a trailing indentation block — the output ends with the
line terminator, `n` spaces, and the final appended line terminator. -/
theorem trailing_linebreak_indent (env : TimeZoneFormatEnv) (style : Style)
    (r : Record) (ts : String) (n : Nat) (front : List Char)
    (hn : env.indent = some n) (ha : r.args.data = front ++ ['\n']) :
    ∃ pre : List Char, (renderOutput env style r ts).data =
      pre ++ (env.suffix.data ++ List.replicate n ' ' ++ env.suffix.data) := by
  refine ⟨("[" ++ ts ++ strJoin ((restFields env style r).map (fun w => " " ++ w)) ++
    "] ").data ++ replaceElem '\n' (env.suffix.data ++ List.replicate n ' ') front, ?_⟩
  rw [renderOutput_eq, str_data_append, str_data_append,
    bodyOut_indent env r.args n hn, ha, replaceElem_append]
  simp [replaceElem, List.append_assoc]

/-- Witness for claim C10: the body `a\n` with indent width 2 renders with a
trailing terminator, two spaces, terminator. -/
theorem trailing_linebreak_indent_witness :
    ∃ pre : List Char, (renderOutput envInd styleNone recNL "T").data =
      pre ++ (envInd.suffix.data ++ List.replicate 2 ' ' ++ envInd.suffix.data) :=
  trailing_linebreak_indent envInd styleNone recNL "T" 2 ['a'] rfl (by decide)

end EnvLoggerTz
